import Mathlib

/-
Shallow embedding of the hazard-mitigation dataset pipeline
(function initialize_dataset) and the hierarchical geographic fallback
resolver (function get_best_score_with_meta) from
app/hazard_mitigation_draft2.py.

Modelling conventions:
* A raw CSV row is modelled after the permissive coercions of the
  normalizer: population is Option Rat (none = the NaN produced by
  pd.to_numeric(errors="coerce") on a missing or non-numeric value) and
  planApprovalDate is Option Int (none = the NaT produced by
  pd.to_datetime(errors="coerce"); some t is the parsed timestamp).
* np.log1p is a transcendental function on floats; it enters every
  statement only through its values, so the pipeline is parametrised by
  an arbitrary function log1p : Rat → Rat.  All theorems are proved for
  every such function.
* Floating point arithmetic is modelled exactly over Rat; NaN
  propagation (which arises only for an empty dataset, where min/max/
  median of an empty series are NaN) is modelled by Option Rat, with
  none playing the role of NaN.  The float comparison log_max == log_min
  is modelled by beqO, which is false whenever one side is NaN.
* pandas sort_values / sort_index are modelled as stable sorts
  (insertion sort); sort_values(ascending=False) with the default
  na_position="last" puts NaT rows at the end, which is exactly the
  descending order on Option Int in which none is the minimum.
* round(x, 2) and Series.round(2), both round-half-to-even, are round2.
* Python's int() truncation toward zero is truncQ.
-/

/-- Raw dataset row, with the date and population fields already run
through the permissive coercions of the normalizer. -/
structure Row where
  stateAbbreviation : String
  countyName : String
  placeName : String
  population : Option ℚ
  planApprovalDate : Option ℤ
deriving DecidableEq

/-- Post-pipeline record: one row of the `latest` frame. -/
structure Rec where
  stateAbbreviation : String
  countyName : String
  placeName : String
  population : ℚ
  planApprovalDate : Option ℤ
  log_pop : ℚ
  score_log_linear : ℚ
deriving DecidableEq

/-- One row of the county-level aggregation frame. -/
structure CountyAgg where
  county_pop : ℚ
  county_score_weighted : ℚ
deriving DecidableEq

/-- One row of the state-level aggregation frame. -/
structure StateAgg where
  state_pop : ℚ
  state_score_weighted : ℚ
deriving DecidableEq

/-
String primitives.  Lean's own String.toUpper / toLower / trim and the
String order are implemented with well-founded recursion over byte
positions, which the kernel cannot evaluate; the Python string methods
.upper() / .lower() / .strip() and code-point comparison are therefore
modelled structurally over the underlying character list (identical
behaviour on the ASCII data of this dataset).
-/

/-- Python str.upper(): uppercase character by character. -/
def strUpper (s : String) : String := ⟨s.data.map Char.toUpper⟩

/-- Python str.lower(): lowercase character by character. -/
def strLower (s : String) : String := ⟨s.data.map Char.toLower⟩

/-- Python str.strip(): drop leading and trailing whitespace. -/
def strTrim (s : String) : String :=
  ⟨List.reverse (List.dropWhile Char.isWhitespace
     (List.reverse (List.dropWhile Char.isWhitespace s.data)))⟩

/-- Code-point lexicographic strict order on character lists. -/
def charListLt : List Char → List Char → Bool
  | [], [] => false
  | [], _ :: _ => true
  | _ :: _, [] => false
  | a :: as, b :: bs =>
      if a.val < b.val then true else if b.val < a.val then false else charListLt as bs

/-- Python string strict order. -/
def strLtB (a b : String) : Bool := charListLt a.data b.data

/-- Python string order (non-strict). -/
def strLeB (a b : String) : Bool := !(strLtB b a)

/-- Stable insertion of one element into a list: `x` is placed before
the first element `y` with `le x y`. -/
def insertSorted (le : α → α → Bool) (x : α) : List α → List α
  | [] => [x]
  | y :: l => if le x y then x :: y :: l else y :: insertSorted le x l

/-- Stable insertion sort by the boolean comparator `le`
("comes before or ties"). -/
def sortByLe (le : α → α → Bool) : List α → List α
  | [] => []
  | x :: l => insertSorted le x (sortByLe le l)

/-- `drop_duplicates(subset=key, keep="first")`: keep the first
occurrence of every key, threading the set of keys already seen. -/
def dropDupBy [DecidableEq κ] (key : α → κ) : List α → List κ → List α
  | [], _ => []
  | x :: xs, seen =>
      if key x ∈ seen then dropDupBy key xs seen
      else x :: dropDupBy key xs (key x :: seen)

/-- Order on nullable timestamps in which NaT is the minimum: this is the
order realised by sort_values(ascending=False, na_position="last")
followed by reading the frame bottom-up. -/
def dateLe : Option ℤ → Option ℤ → Bool
  | none, _ => true
  | some _, none => false
  | some a, some b => decide (a ≤ b)

/-- Comparator for `sort_values(by="planApprovalDate", ascending=False)`:
`a` comes before `b` when its date is the later one (NaT last). -/
def rowBefore (a b : Row) : Bool := dateLe b.planApprovalDate a.planApprovalDate

/-- The exact (case-sensitive) deduplication key
`subset=["stateAbbreviation", "placeName"]`. -/
def dedupKey (r : Row) : String × String := (r.stateAbbreviation, r.placeName)

/-- `df.sort_values(by="planApprovalDate", ascending=False)` followed by
`drop_duplicates(subset=["stateAbbreviation", "placeName"], keep="first")`. -/
def dedupRows (rows : List Row) : List Row :=
  dropDupBy dedupKey (sortByLe rowBefore rows) []

/-- Population cleaning: `pd.to_numeric(errors="coerce").fillna(0)` and
then `latest.loc[latest["population"] <= 0, "population"] = 1000`. -/
def cleanPop (p : Option ℚ) : ℚ :=
  let v := p.getD 0
  if v ≤ 0 then 1000 else v

/-- `Series.min()` (an empty series yields NaN, modelled as none). -/
def listMin : List ℚ → Option ℚ
  | [] => none
  | x :: xs => some (match listMin xs with | none => x | some m => min x m)

/-- `Series.max()` (an empty series yields NaN, modelled as none). -/
def listMax : List ℚ → Option ℚ
  | [] => none
  | x :: xs => some (match listMax xs with | none => x | some m => max x m)

/-- Comparator used to sort plain rationals ascending. -/
def qle (a b : ℚ) : Bool := decide (a ≤ b)

/-- `Series.median()`: sort ascending, take the middle element (odd
length) or the mean of the two middle elements (even length). -/
def listMedian (l : List ℚ) : Option ℚ :=
  if (sortByLe qle l).length = 0 then none
  else if (sortByLe qle l).length % 2 = 1 then
    some ((sortByLe qle l).getD ((sortByLe qle l).length / 2) 0)
  else
    some (((sortByLe qle l).getD ((sortByLe qle l).length / 2 - 1) 0 +
           (sortByLe qle l).getD ((sortByLe qle l).length / 2) 0) / 2)

/-- Round half to even to an integer (Python round / numpy rounding). -/
def roundHalfEven (q : ℚ) : ℤ :=
  if q - (⌊q⌋ : ℚ) < 1 / 2 then ⌊q⌋
  else if 1 / 2 < q - (⌊q⌋ : ℚ) then ⌊q⌋ + 1
  else if ⌊q⌋ % 2 = 0 then ⌊q⌋ else ⌊q⌋ + 1

/-- `round(x, 2)`: round half to even at two decimal places. -/
def round2 (q : ℚ) : ℚ := (roundHalfEven (q * 100) : ℚ) / 100

/-- The linear rescale of one log-population against the global stats:
`((lp - log_min) / (log_max - log_min)) * 99 + 1` with the degenerate
`log_max == log_min` branch pinned to 50.0, rounded to 2 decimals. -/
def scoreLin (log_min log_max lp : ℚ) : ℚ :=
  round2 (if log_max = log_min then 50
          else ((lp - log_min) / (log_max - log_min)) * 99 + 1)

/-- `sum` of the population column of a group. -/
def sumPop (g : List Rec) : ℚ := (g.map (fun r => r.population)).sum

/-- `np.average(scores, weights=populations)` over a group:
`sum(score_i * population_i) / sum(population_i)`. -/
def weightedScore (g : List Rec) : ℚ :=
  (g.map (fun r => r.score_log_linear * r.population)).sum / sumPop g

/-- Lexicographic comparator on pairs of strings (groupby key order). -/
def pairLe (a b : String × String) : Bool :=
  if a.1 = b.1 then strLeB a.2 b.2 else strLtB a.1 b.1

/-- Comparator on strings (groupby key order). -/
def strLe (a b : String) : Bool := strLeB a b

/-- Exact group key of `groupby(["stateAbbreviation", "countyName"])`. -/
def countyKey (r : Rec) : String × String := (r.stateAbbreviation, r.countyName)

/-- The aggregate row of one county group: total population and the
population-weighted mean of the linear scores of the group. -/
def countyAggAt (latest : List Rec) (k : String × String) : CountyAgg :=
  ⟨sumPop (latest.filter (fun r => decide (countyKey r = k))),
   weightedScore (latest.filter (fun r => decide (countyKey r = k)))⟩

/-- `latest.groupby(["stateAbbreviation", "countyName"]).agg(county_pop=
("population", "sum"), county_score_weighted=(np.average weighted by
population))`: one output row per distinct exact key, keys sorted. -/
def countyGroupOf (latest : List Rec) : List ((String × String) × CountyAgg) :=
  (sortByLe pairLe (dropDupBy id (latest.map countyKey) [])).map
    (fun k => (k, countyAggAt latest k))

/-- The aggregate row of one state group. -/
def stateAggAt (latest : List Rec) (k : String) : StateAgg :=
  ⟨sumPop (latest.filter (fun r => decide (r.stateAbbreviation = k))),
   weightedScore (latest.filter (fun r => decide (r.stateAbbreviation = k)))⟩

/-- `latest.groupby("stateAbbreviation").agg(state_pop=("population",
"sum"), state_score_weighted=(np.average weighted by population))`. -/
def stateGroupOf (latest : List Rec) : List (String × StateAgg) :=
  (sortByLe strLe (dropDupBy id (latest.map (fun r => r.stateAbbreviation)) [])).map
    (fun k => (k, stateAggAt latest k))

/-- The immutable snapshot returned by the setup function: the `latest`
frame, the three indexes, and the global log-population statistics. -/
structure Snapshot where
  latest : List Rec
  town_index : List ((String × String) × Rec)
  county_index : List ((String × String) × CountyAgg)
  state_index : List (String × StateAgg)
  log_min : Option ℚ
  log_max : Option ℚ
  log_median : Option ℚ
deriving DecidableEq

/-- Build one `latest` record from a deduplicated row: clean the
population, log-transform it, and attach the linear score.  The
fallthrough branch of the match is unreachable: whenever a record
exists, the global stats are defined. -/
def mkRec (log1p : ℚ → ℚ) (mn mx : Option ℚ) (r : Row) : Rec :=
  let pop := cleanPop r.population
  let lp := log1p pop
  { stateAbbreviation := r.stateAbbreviation
    countyName := r.countyName
    placeName := r.placeName
    population := pop
    planApprovalDate := r.planApprovalDate
    log_pop := lp
    score_log_linear :=
      match mn, mx with
      | some a, some b => scoreLin a b lp
      | _, _ => 0 }

/-- Case-normalized town index key:
`(stateAbbreviation.str.upper(), placeName.str.lower())`. -/
def townKey (r : Rec) : String × String :=
  (strUpper r.stateAbbreviation, strLower r.placeName)

/-- Comparator realising `town_index.sort_index()` (stable, by key). -/
def townPairLe (a b : (String × String) × Rec) : Bool := pairLe a.1 b.1

/-- The setup function: load, normalize, deduplicate, score, aggregate
and index the dataset, returning the full snapshot. -/
def initialize_dataset (log1p : ℚ → ℚ) (rows : List Row) : Snapshot :=
  let deduped := dedupRows rows
  let logs := deduped.map (fun r => log1p (cleanPop r.population))
  let mn := listMin logs
  let mx := listMax logs
  let md := listMedian logs
  let latest := deduped.map (mkRec log1p mn mx)
  { latest := latest
    town_index := sortByLe townPairLe (latest.map (fun r => (townKey r, r)))
    county_index := (countyGroupOf latest).map
      (fun e => ((strUpper e.1.1, strLower e.1.2), e.2))
    state_index := (stateGroupOf latest).map (fun e => (strUpper e.1, e.2))
    log_min := mn
    log_max := mx
    log_median := md }

/-- `_norm`: strip surrounding whitespace (null inputs, which _norm maps
to "", are outside the String-typed model). -/
def _norm (s : String) : String := strTrim s

/-- First-match lookup in an index: `key in index` followed by
`.loc[key]`, which on a duplicated key yields the first indexed row
(`.iloc[0]`). -/
def lookup1 [DecidableEq κ] (idx : List (κ × ν)) (k : κ) : Option ν :=
  (idx.find? (fun e => decide (e.1 = k))).map (fun e => e.2)

/-- Python `int()`: truncation toward zero. -/
def truncQ (q : ℚ) : ℤ := if 0 ≤ q then ⌊q⌋ else -⌊-q⌋

/-- The level-specific `details` dictionary built by the resolver. -/
inductive Details where
  | town (resolved_at : String) (placeName : String)
      (population : ℤ) (score_log_linear : ℚ)
  | county (resolved_at : String) (countyName : String)
      (county_score_weighted : ℚ)
  | state (resolved_at : String) (stateAbbreviation : String)
      (state_score_weighted : ℚ)
  | fallback (resolved_at : String) (note : String)
deriving DecidableEq

/-- Float equality test `log_max == log_min`: false whenever either side
is NaN (none). -/
def beqO : Option ℚ → Option ℚ → Bool
  | some a, some b => decide (a = b)
  | _, _ => false

/-- The global-fallback score: 50.0 when `log_max == log_min`, otherwise
`round(((log_median - log_min) / (log_max - log_min)) * 99 + 1, 2)`;
with any statistic NaN the float formula itself evaluates to NaN. -/
def fallbackScore : Option ℚ → Option ℚ → Option ℚ → Option ℚ
  | some a, some b, some m => some (scoreLin a b m)
  | mn, mx, _ => if beqO mx mn then some 50 else none

/-- The resolver `get_best_score_with_meta`: normalize the query, then
try the town index, the county index, the state index, and finally the
global fallback, returning `(score, level, details)`. -/
def get_best_score_with_meta (state_abbrev county_name place_name : String)
    (snap : Snapshot) : Option ℚ × String × Details :=
  let st := strUpper (_norm state_abbrev)
  let cn := strLower (_norm county_name)
  let pl := strLower (_norm place_name)
  match lookup1 snap.town_index (st, pl) with
  | some r =>
      (some r.score_log_linear, "town",
        Details.town "town" r.placeName (truncQ r.population) r.score_log_linear)
  | none =>
    match lookup1 snap.county_index (st, cn) with
    | some c =>
        (some c.county_score_weighted, "county",
          Details.county "county" (_norm cn) c.county_score_weighted)
    | none =>
      match lookup1 snap.state_index st with
      | some s =>
          (some s.state_score_weighted, "state",
            Details.state "state" st s.state_score_weighted)
      | none =>
          (fallbackScore snap.log_min snap.log_max snap.log_median,
            "global_fallback",
            Details.fallback "global_fallback" "no match found for town/county/state")

/-- The log-population series of the deduplicated frame. -/
def logsOf (log1p : ℚ → ℚ) (rows : List Row) : List ℚ :=
  (dedupRows rows).map (fun r => log1p (cleanPop r.population))

/-
Concrete datasets used to instantiate the theorems below.
-/

/-- Two towns of one county of one state. -/
def rowsA : List Row :=
  [⟨"CA", "LA County", "Los Angeles", some 3, some 1⟩,
   ⟨"CA", "LA County", "Pasadena", some 2, some 2⟩]

def snapA : Snapshot := initialize_dataset (fun q => q) rowsA

/-- The record built for Los Angeles in `snapA`. -/
def recLA : Rec := ⟨"CA", "LA County", "Los Angeles", 3, some 1, 3, 100⟩

/-- A single-record dataset (degenerate statistics). -/
def rows2 : List Row := [⟨"CA", "Kern", "Bakersfield", some 2, some 1⟩]

/-- An undated and a dated duplicate of the same (state, place) pair. -/
def rowU : Row := ⟨"CA", "K", "X", some 5, none⟩

def rowD : Row := ⟨"CA", "K", "X", some 7, some 3⟩

def rows3 : List Row := [rowU, rowD]

/-- The aggregator input of the spec's weighted-aggregation example:
one county holding a record of population 1000 with score 40 and a
record of population 3000 with score 80. -/
def latestW : List Rec :=
  [⟨"CA", "K", "T1", 1000, some 1, 39, 40⟩,
   ⟨"CA", "K", "T2", 3000, some 2, 79, 80⟩]

/-- Two records sharing one population value. -/
def rows6 : List Row :=
  [⟨"CA", "K", "A", some 7, some 1⟩, ⟨"NV", "O", "B", some 7, some 2⟩]

/-- One valid row whose population is positive but below 1000. -/
def rows7 : List Row := [⟨"CA", "K", "X", some 5, none⟩]

/-- The record built from `rows7`. -/
def rec7 : Rec := ⟨"CA", "K", "X", 5, none, 5, 50⟩

/-- Two distinct exact (state, place) pairs that collide after case
normalization of the town-index key. -/
def rows10 : List Row :=
  [⟨"CA", "K", "Springfield", some 2, some 5⟩,
   ⟨"CA", "K", "springfield", some 3, some 4⟩]

def snap10 : Snapshot := initialize_dataset (fun q => q) rows10

/-- The two colliding records of `snap10`. -/
def rec10a : Rec := ⟨"CA", "K", "Springfield", 2, some 5, 2, 1⟩

def rec10b : Rec := ⟨"CA", "K", "springfield", 3, some 4, 3, 100⟩

/-
Generic lemmas about the stable insertion sort.
-/

open List

theorem insertSorted_perm (le : α → α → Bool) (x : α) (l : List α) :
    insertSorted le x l ~ x :: l := by
  induction l with
  | nil => rfl
  | cons y t ih =>
    simp only [insertSorted]
    split
    · rfl
    · exact (List.Perm.cons y ih).trans (List.Perm.swap x y t)

theorem sortByLe_perm (le : α → α → Bool) (l : List α) : sortByLe le l ~ l := by
  induction l with
  | nil => rfl
  | cons x t ih => exact (insertSorted_perm le x _).trans (List.Perm.cons x ih)

theorem mem_sortByLe {le : α → α → Bool} {l : List α} {x : α} :
    x ∈ sortByLe le l ↔ x ∈ l :=
  (sortByLe_perm le l).mem_iff

theorem pairwise_insertSorted (le : α → α → Bool)
    (hT : ∀ a b, le a b = true ∨ le b a = true)
    (htr : ∀ a b c, le a b = true → le b c = true → le a c = true)
    (x : α) (l : List α) (h : l.Pairwise (fun a b => le a b = true)) :
    (insertSorted le x l).Pairwise (fun a b => le a b = true) := by
  induction l with
  | nil => simp [insertSorted]
  | cons y t ih =>
    rcases List.pairwise_cons.mp h with ⟨hy, ht⟩
    simp only [insertSorted]
    by_cases hxy : le x y = true
    · rw [if_pos hxy]
      refine List.pairwise_cons.mpr ⟨?_, h⟩
      intro z hz
      rcases List.mem_cons.mp hz with rfl | hz2
      · exact hxy
      · exact htr x y z hxy (hy z hz2)
    · rw [if_neg hxy]
      have hyx : le y x = true := (hT x y).resolve_left hxy
      refine List.pairwise_cons.mpr ⟨?_, ih ht⟩
      intro z hz
      have hz2 : z ∈ x :: t := (insertSorted_perm le x t).subset hz
      rcases List.mem_cons.mp hz2 with rfl | hz3
      · exact hyx
      · exact hy z hz3

theorem sortByLe_pairwise (le : α → α → Bool)
    (hT : ∀ a b, le a b = true ∨ le b a = true)
    (htr : ∀ a b c, le a b = true → le b c = true → le a c = true)
    (l : List α) : (sortByLe le l).Pairwise (fun a b => le a b = true) := by
  induction l with
  | nil => simp [sortByLe]
  | cons x t ih => exact pairwise_insertSorted le hT htr x _ ih

theorem sortByLe_eq_self (le : α → α → Bool) (l : List α)
    (h : l.Pairwise (fun a b => le a b = true)) : sortByLe le l = l := by
  induction l with
  | nil => rfl
  | cons x t ih =>
    rcases List.pairwise_cons.mp h with ⟨hx, ht⟩
    simp only [sortByLe, ih ht]
    cases t with
    | nil => rfl
    | cons y u => simp only [insertSorted, if_pos (hx y (List.mem_cons_self y u))]

/-
Generic lemmas about keyed first-occurrence deduplication.
-/

theorem dropDupBy_sublist [DecidableEq κ] (key : α → κ) (l : List α) (seen : List κ) :
    dropDupBy key l seen <+ l := by
  induction l generalizing seen with
  | nil => simp [dropDupBy]
  | cons x t ih =>
    simp only [dropDupBy]
    split
    · exact (ih seen).cons x
    · exact (ih (key x :: seen)).cons₂ x

theorem mem_of_mem_dropDupBy [DecidableEq κ] {key : α → κ} {l : List α} {seen : List κ}
    {x : α} (h : x ∈ dropDupBy key l seen) : x ∈ l :=
  (dropDupBy_sublist key l seen).subset h

theorem key_not_mem_seen [DecidableEq κ] {key : α → κ} :
    ∀ {l : List α} {seen : List κ} {x : α}, x ∈ dropDupBy key l seen → key x ∉ seen := by
  intro l
  induction l with
  | nil => intro seen x h; simp [dropDupBy] at h
  | cons y t ih =>
    intro seen x h
    simp only [dropDupBy] at h
    by_cases hy : key y ∈ seen
    · rw [if_pos hy] at h
      exact ih h
    · rw [if_neg hy] at h
      rcases List.mem_cons.mp h with rfl | h2
      · exact hy
      · exact fun hc => ih h2 (List.mem_cons_of_mem _ hc)

theorem pairwise_key_ne [DecidableEq κ] (key : α → κ) :
    ∀ (l : List α) (seen : List κ),
      (dropDupBy key l seen).Pairwise (fun a b => key a ≠ key b) := by
  intro l
  induction l with
  | nil => intro seen; simp [dropDupBy]
  | cons x t ih =>
    intro seen
    simp only [dropDupBy]
    split
    · exact ih seen
    · refine List.pairwise_cons.mpr ⟨?_, ih (key x :: seen)⟩
      intro b hb he
      exact key_not_mem_seen hb (by rw [← he]; exact List.mem_cons_self _ _)

theorem dropDupBy_eq_self [DecidableEq κ] (key : α → κ) :
    ∀ (l : List α) (seen : List κ),
      l.Pairwise (fun a b => key a ≠ key b) → (∀ x ∈ l, key x ∉ seen) →
      dropDupBy key l seen = l := by
  intro l
  induction l with
  | nil => intro seen _ _; rfl
  | cons x t ih =>
    intro seen hp hs
    rcases List.pairwise_cons.mp hp with ⟨hx, ht⟩
    simp only [dropDupBy]
    rw [if_neg (hs x (List.mem_cons_self x t))]
    congr 1
    refine ih _ ht ?_
    intro y hy hc
    rcases List.mem_cons.mp hc with he | h2
    · exact hx y hy he.symm
    · exact hs y (List.mem_cons_of_mem x hy) h2

theorem exists_key_mem_dropDupBy [DecidableEq κ] (key : α → κ) :
    ∀ (l : List α) (seen : List κ) (x : α), x ∈ l → key x ∉ seen →
      ∃ y ∈ dropDupBy key l seen, key y = key x := by
  intro l
  induction l with
  | nil => intro seen x h; simp at h
  | cons z t ih =>
    intro seen x hx hs
    simp only [dropDupBy]
    by_cases hz : key z ∈ seen
    · rw [if_pos hz]
      rcases List.mem_cons.mp hx with rfl | h2
      · exact absurd hz hs
      · exact ih seen x h2 hs
    · rw [if_neg hz]
      by_cases hk : key x = key z
      · exact ⟨z, List.mem_cons_self _ _, hk.symm⟩
      · rcases List.mem_cons.mp hx with rfl | h2
        · exact absurd rfl hk
        · obtain ⟨y, hy, hky⟩ := ih (key z :: seen) x h2 (by
            intro hc
            rcases List.mem_cons.mp hc with h | h
            · exact hk h
            · exact hs h)
          exact ⟨y, List.mem_cons_of_mem _ hy, hky⟩

theorem mem_dropDupBy_id [DecidableEq κ] {l : List κ} {x : κ} (h : x ∈ l) :
    x ∈ dropDupBy id l [] := by
  obtain ⟨y, hy, he⟩ := exists_key_mem_dropDupBy id l [] x h (by simp)
  exact (show y = x from he) ▸ hy

theorem rel_of_mem_dropDupBy [DecidableEq κ] (key : α → κ) (R : α → α → Prop) :
    ∀ (l : List α) (seen : List κ), l.Pairwise R →
      ∀ x ∈ dropDupBy key l seen, ∀ y ∈ l, key y = key x → x = y ∨ R x y := by
  intro l
  induction l with
  | nil => intro seen _ x hx; simp [dropDupBy] at hx
  | cons z t ih =>
    intro seen hp x hx y hy hk
    rcases List.pairwise_cons.mp hp with ⟨hz, ht⟩
    simp only [dropDupBy] at hx
    by_cases hzs : key z ∈ seen
    · rw [if_pos hzs] at hx
      rcases List.mem_cons.mp hy with rfl | hy2
      · exact absurd (hk ▸ hzs) (key_not_mem_seen hx)
      · exact ih seen ht x hx y hy2 hk
    · rw [if_neg hzs] at hx
      rcases List.mem_cons.mp hx with rfl | hx2
      · rcases List.mem_cons.mp hy with rfl | hy2
        · exact Or.inl rfl
        · exact Or.inr (hz y hy2)
      · have hxz : key x ≠ key z := fun hc =>
          key_not_mem_seen hx2 (by rw [hc]; exact List.mem_cons_self _ _)
        rcases List.mem_cons.mp hy with rfl | hy2
        · exact absurd hk.symm hxz
        · exact ih (key z :: seen) ht x hx2 y hy2 hk

/-
The nullable date order is reflexive, total and transitive.
-/

theorem dateLe_refl (a : Option ℤ) : dateLe a a = true := by
  cases a <;> simp [dateLe]

theorem dateLe_total (a b : Option ℤ) : dateLe a b = true ∨ dateLe b a = true := by
  cases a <;> cases b <;> simp [dateLe]
  exact Int.le_total _ _

theorem dateLe_trans {a b c : Option ℤ} (h1 : dateLe a b = true) (h2 : dateLe b c = true) :
    dateLe a c = true := by
  cases a <;> cases b <;> cases c <;> simp [dateLe] at *
  exact Int.le_trans h1 h2

theorem rowBefore_total (a b : Row) : rowBefore a b = true ∨ rowBefore b a = true :=
  (dateLe_total b.planApprovalDate a.planApprovalDate).elim Or.inl Or.inr

theorem rowBefore_trans {a b c : Row} (h1 : rowBefore a b = true) (h2 : rowBefore b c = true) :
    rowBefore a c = true :=
  dateLe_trans h2 h1

/-
Minimum, maximum and median of a series.
-/

theorem listMin_eq_none {l : List ℚ} (h : listMin l = none) : l = [] := by
  cases l with
  | nil => rfl
  | cons x xs => simp [listMin] at h

theorem listMin_of_ne_nil {l : List ℚ} (h : l ≠ []) : ∃ m, listMin l = some m := by
  cases hm : listMin l with
  | none => exact absurd (listMin_eq_none hm) h
  | some m => exact ⟨m, rfl⟩

theorem listMin_le : ∀ {l : List ℚ} {m : ℚ}, listMin l = some m → ∀ x ∈ l, m ≤ x := by
  intro l
  induction l with
  | nil => intro m h x hx; simp at hx
  | cons a t ih =>
    intro m h x hx
    simp only [listMin] at h
    rcases List.mem_cons.mp hx with rfl | hx2
    · cases ht : listMin t with
      | none => rw [ht] at h; injection h with h; exact h ▸ le_refl x
      | some mt => rw [ht] at h; injection h with h; exact h ▸ min_le_left x mt
    · cases ht : listMin t with
      | none => exact absurd (listMin_eq_none ht ▸ hx2) (List.not_mem_nil x)
      | some mt =>
        rw [ht] at h; injection h with h
        exact h ▸ le_trans (min_le_right a mt) (ih ht x hx2)

theorem listMin_mem : ∀ {l : List ℚ} {m : ℚ}, listMin l = some m → m ∈ l := by
  intro l
  induction l with
  | nil => intro m h; simp [listMin] at h
  | cons a t ih =>
    intro m h
    simp only [listMin] at h
    cases ht : listMin t with
    | none => rw [ht] at h; injection h with h; exact h ▸ List.mem_cons_self a t
    | some mt =>
      rw [ht] at h; injection h with h
      have h2 : min a mt = m := h
      rcases min_choice a mt with hc | hc
      · rw [h2.symm.trans hc]; exact List.mem_cons_self a t
      · rw [h2.symm.trans hc]; exact List.mem_cons_of_mem a (ih ht)

theorem listMax_eq_none {l : List ℚ} (h : listMax l = none) : l = [] := by
  cases l with
  | nil => rfl
  | cons x xs => simp [listMax] at h

theorem listMax_of_ne_nil {l : List ℚ} (h : l ≠ []) : ∃ m, listMax l = some m := by
  cases hm : listMax l with
  | none => exact absurd (listMax_eq_none hm) h
  | some m => exact ⟨m, rfl⟩

theorem listMax_ge : ∀ {l : List ℚ} {m : ℚ}, listMax l = some m → ∀ x ∈ l, x ≤ m := by
  intro l
  induction l with
  | nil => intro m h x hx; simp at hx
  | cons a t ih =>
    intro m h x hx
    simp only [listMax] at h
    rcases List.mem_cons.mp hx with rfl | hx2
    · cases ht : listMax t with
      | none => rw [ht] at h; injection h with h; exact h ▸ le_refl x
      | some mt => rw [ht] at h; injection h with h; exact h ▸ le_max_left x mt
    · cases ht : listMax t with
      | none => exact absurd (listMax_eq_none ht ▸ hx2) (List.not_mem_nil x)
      | some mt =>
        rw [ht] at h; injection h with h
        exact h ▸ le_trans (ih ht x hx2) (le_max_right a mt)

theorem listMedian_of_ne_nil {l : List ℚ} (h : l ≠ []) : ∃ md, listMedian l = some md := by
  have hlen : (sortByLe qle l).length = l.length := (sortByLe_perm qle l).length_eq
  have h0 : ¬((sortByLe qle l).length = 0) := by
    rw [hlen]
    exact fun hc => h (List.length_eq_zero.mp hc)
  unfold listMedian
  rw [if_neg h0]
  split
  · exact ⟨_, rfl⟩
  · exact ⟨_, rfl⟩

theorem listMedian_bounds {l : List ℚ} {mn mx md : ℚ}
    (hmn : listMin l = some mn) (hmx : listMax l = some mx)
    (hmd : listMedian l = some md) : mn ≤ md ∧ md ≤ mx := by
  have hb : ∀ x ∈ sortByLe qle l, mn ≤ x ∧ x ≤ mx := fun x hx =>
    ⟨listMin_le hmn x ((sortByLe_perm qle l).subset hx),
     listMax_ge hmx x ((sortByLe_perm qle l).subset hx)⟩
  unfold listMedian at hmd
  by_cases h0 : (sortByLe qle l).length = 0
  · rw [if_pos h0] at hmd; cases hmd
  · rw [if_neg h0] at hmd
    have hpos : 0 < (sortByLe qle l).length := Nat.pos_of_ne_zero h0
    have hlt : (sortByLe qle l).length / 2 < (sortByLe qle l).length :=
      Nat.div_lt_self hpos (by norm_num)
    have hmem2 : (sortByLe qle l).getD ((sortByLe qle l).length / 2) 0 ∈ sortByLe qle l := by
      rw [List.getD_eq_getElem _ _ hlt]
      exact List.getElem_mem _
    by_cases h1 : (sortByLe qle l).length % 2 = 1
    · rw [if_pos h1] at hmd
      injection hmd with hmd
      subst hmd
      exact hb _ hmem2
    · rw [if_neg h1] at hmd
      injection hmd with hmd
      have hlt1 : (sortByLe qle l).length / 2 - 1 < (sortByLe qle l).length :=
        lt_of_le_of_lt (Nat.sub_le _ _) hlt
      have hmem1 : (sortByLe qle l).getD ((sortByLe qle l).length / 2 - 1) 0 ∈ sortByLe qle l := by
        rw [List.getD_eq_getElem _ _ hlt1]
        exact List.getElem_mem _
      obtain ⟨ha1, ha2⟩ := hb _ hmem1
      obtain ⟨hc1, hc2⟩ := hb _ hmem2
      subst hmd
      constructor <;> linarith

/-
Round-half-to-even bounds.
-/

theorem roundHalfEven_eq_floor_or (q : ℚ) :
    roundHalfEven q = ⌊q⌋ ∨ roundHalfEven q = ⌊q⌋ + 1 := by
  unfold roundHalfEven
  split
  · exact Or.inl rfl
  · split
    · exact Or.inr rfl
    · split
      · exact Or.inl rfl
      · exact Or.inr rfl

theorem le_roundHalfEven {n : ℤ} {q : ℚ} (h : (n : ℚ) ≤ q) : n ≤ roundHalfEven q := by
  have hf : n ≤ ⌊q⌋ := Int.le_floor.mpr h
  rcases roundHalfEven_eq_floor_or q with he | he <;> rw [he] <;> omega

theorem roundHalfEven_le {n : ℤ} {q : ℚ} (h : q ≤ (n : ℚ)) : roundHalfEven q ≤ n := by
  have hfl : ⌊q⌋ ≤ n := by
    have := Int.floor_mono h
    rwa [Int.floor_intCast] at this
  unfold roundHalfEven
  by_cases h1 : q - (⌊q⌋ : ℚ) < 1 / 2
  · rw [if_pos h1]; exact hfl
  · rw [if_neg h1]
    have hfrac : (1 : ℚ) / 2 ≤ q - (⌊q⌋ : ℚ) := not_lt.mp h1
    have hne : q ≠ (n : ℚ) := by
      intro he
      rw [he, Int.floor_intCast] at hfrac
      simp at hfrac
      linarith
    have hqlt : q < (n : ℚ) := lt_of_le_of_ne h hne
    have hfn : ⌊q⌋ < n := by
      have hcast : (⌊q⌋ : ℚ) < (n : ℚ) := lt_of_le_of_lt (Int.floor_le q) hqlt
      exact_mod_cast hcast
    by_cases h2 : 1 / 2 < q - (⌊q⌋ : ℚ)
    · rw [if_pos h2]; omega
    · rw [if_neg h2]
      by_cases h3 : ⌊q⌋ % 2 = 0
      · rw [if_pos h3]; exact hfl
      · rw [if_neg h3]; omega

theorem round2_bounds {a b : ℤ} {q : ℚ} (h1 : (a : ℚ) ≤ q) (h2 : q ≤ (b : ℚ)) :
    (a : ℚ) ≤ round2 q ∧ round2 q ≤ (b : ℚ) := by
  have h1c : ((100 * a : ℤ) : ℚ) ≤ q * 100 := by push_cast; linarith
  have h2c : q * 100 ≤ ((100 * b : ℤ) : ℚ) := by push_cast; linarith
  have l1 := le_roundHalfEven h1c
  have l2 := roundHalfEven_le h2c
  unfold round2
  constructor
  · rw [le_div_iff₀ (by norm_num : (0 : ℚ) < 100)]
    calc (a : ℚ) * 100 = ((100 * a : ℤ) : ℚ) := by push_cast; ring
    _ ≤ (roundHalfEven (q * 100) : ℚ) := by exact_mod_cast l1
  · rw [div_le_iff₀ (by norm_num : (0 : ℚ) < 100)]
    calc ((roundHalfEven (q * 100) : ℤ) : ℚ) ≤ ((100 * b : ℤ) : ℚ) := by exact_mod_cast l2
    _ = (b : ℚ) * 100 := by push_cast; ring

theorem roundHalfEven_intCast (n : ℤ) : roundHalfEven (n : ℚ) = n := by
  unfold roundHalfEven
  rw [Int.floor_intCast, sub_self, if_pos (by norm_num : (0 : ℚ) < 1 / 2)]

theorem round2_intCast (n : ℤ) : round2 ((n : ℤ) : ℚ) = (n : ℚ) := by
  unfold round2
  have hc : ((n : ℤ) : ℚ) * 100 = ((100 * n : ℤ) : ℚ) := by push_cast; ring
  rw [hc, roundHalfEven_intCast]
  rw [div_eq_iff (by norm_num : (100 : ℚ) ≠ 0)]
  push_cast
  ring

theorem round2_fifty : round2 50 = 50 := by
  have := round2_intCast 50
  norm_num at this
  exact this

/-
Bounds for the linear score.
-/

theorem scoreLin_degenerate (a lp : ℚ) : scoreLin a a lp = 50 := by
  unfold scoreLin
  rw [if_pos rfl]
  exact round2_fifty

theorem scoreLin_bounds {mn mx lp : ℚ} (h1 : mn ≤ lp) (h2 : lp ≤ mx) :
    1 ≤ scoreLin mn mx lp ∧ scoreLin mn mx lp ≤ 100 := by
  unfold scoreLin
  by_cases he : mx = mn
  · rw [if_pos he, round2_fifty]
    norm_num
  · rw [if_neg he]
    have hlt : mn < mx := lt_of_le_of_ne (le_trans h1 h2) (Ne.symm he)
    have hpos : 0 < mx - mn := by linarith
    have hd0 : 0 ≤ (lp - mn) / (mx - mn) := div_nonneg (by linarith) (le_of_lt hpos)
    have hd1 : (lp - mn) / (mx - mn) ≤ 1 := by
      rw [div_le_one hpos]; linarith
    have hA : ((1 : ℤ) : ℚ) ≤ (lp - mn) / (mx - mn) * 99 + 1 := by push_cast; nlinarith
    have hB : (lp - mn) / (mx - mn) * 99 + 1 ≤ ((100 : ℤ) : ℚ) := by push_cast; nlinarith
    have hr := round2_bounds hA hB
    constructor
    · exact_mod_cast hr.1
    · exact_mod_cast hr.2

/-
Bounds for the population-weighted mean.
-/

theorem sumPop_nonneg {g : List Rec} (hp : ∀ r ∈ g, 0 ≤ r.population) : 0 ≤ sumPop g := by
  induction g with
  | nil => simp [sumPop]
  | cons r t ih =>
    simp only [sumPop, List.map_cons, List.sum_cons]
    have h1 := hp r (List.mem_cons_self r t)
    have h2 := ih (fun x hx => hp x (List.mem_cons_of_mem r hx))
    simp only [sumPop] at h2
    linarith

theorem sumPop_pos {g : List Rec} (hne : g ≠ []) (hp : ∀ r ∈ g, 0 < r.population) :
    0 < sumPop g := by
  cases g with
  | nil => exact absurd rfl hne
  | cons r t =>
    simp only [sumPop, List.map_cons, List.sum_cons]
    have h1 := hp r (List.mem_cons_self r t)
    have h2 : 0 ≤ sumPop t :=
      sumPop_nonneg (fun x hx => le_of_lt (hp x (List.mem_cons_of_mem r hx)))
    simp only [sumPop] at h2
    linarith

theorem weightedScore_bounds {g : List Rec} {lo hi : ℚ} (hne : g ≠ [])
    (hp : ∀ r ∈ g, 0 < r.population)
    (hs : ∀ r ∈ g, lo ≤ r.score_log_linear ∧ r.score_log_linear ≤ hi) :
    lo ≤ weightedScore g ∧ weightedScore g ≤ hi := by
  have hpos : 0 < sumPop g := sumPop_pos hne hp
  have hlow : lo * sumPop g ≤ (g.map (fun r => r.score_log_linear * r.population)).sum := by
    clear hne hpos
    induction g with
    | nil => simp [sumPop]
    | cons r t ih =>
      simp only [sumPop, List.map_cons, List.sum_cons, mul_add]
      have h1 : lo * r.population ≤ r.score_log_linear * r.population :=
        mul_le_mul_of_nonneg_right (hs r (List.mem_cons_self r t)).1
          (le_of_lt (hp r (List.mem_cons_self r t)))
      have h2 := ih (fun x hx => hp x (List.mem_cons_of_mem r hx))
        (fun x hx => hs x (List.mem_cons_of_mem r hx))
      simp only [sumPop] at h2
      linarith
  have hhigh : (g.map (fun r => r.score_log_linear * r.population)).sum ≤ hi * sumPop g := by
    clear hne hpos hlow
    induction g with
    | nil => simp [sumPop]
    | cons r t ih =>
      simp only [sumPop, List.map_cons, List.sum_cons, mul_add]
      have h1 : r.score_log_linear * r.population ≤ hi * r.population :=
        mul_le_mul_of_nonneg_right (hs r (List.mem_cons_self r t)).2
          (le_of_lt (hp r (List.mem_cons_self r t)))
      have h2 := ih (fun x hx => hp x (List.mem_cons_of_mem r hx))
        (fun x hx => hs x (List.mem_cons_of_mem r hx))
      simp only [sumPop] at h2
      linarith
  constructor
  · rw [weightedScore, le_div_iff₀ hpos]
    exact hlow
  · rw [weightedScore, div_le_iff₀ hpos]
    exact hhigh

/-
First-match lookup lemmas.
-/

theorem find?_eq_of_filter_cons {p : α → Bool} :
    ∀ {l : List α} {x : α} {xs : List α}, l.filter p = x :: xs → l.find? p = some x := by
  intro l
  induction l with
  | nil => intro x xs h; simp at h
  | cons a t ih =>
    intro x xs h
    by_cases hp : p a
    · rw [List.filter_cons_of_pos hp] at h
      injection h with h1 _
      rw [List.find?_cons_of_pos _ hp, h1]
    · rw [List.filter_cons_of_neg hp] at h
      rw [List.find?_cons_of_neg _ hp]
      exact ih h

theorem lookup1_map_keys [DecidableEq κ] (f : κ → ν) (keys : List κ) (k : κ) :
    lookup1 (keys.map (fun x => (x, f x))) k = if k ∈ keys then some (f k) else none := by
  induction keys with
  | nil => simp [lookup1]
  | cons a t ih =>
    by_cases ha : a = k
    · subst ha
      simp [lookup1, List.find?_cons_of_pos]
    · have hstep : lookup1 ((a :: t).map (fun x => (x, f x))) k =
          lookup1 (t.map (fun x => (x, f x))) k := by
        simp only [List.map_cons, lookup1]
        rw [List.find?_cons_of_neg _ (by simpa using ha)]
      rw [hstep, ih]
      by_cases hk : k ∈ t
      · rw [if_pos hk, if_pos (List.mem_cons_of_mem a hk)]
      · rw [if_neg hk, if_neg (by
          intro hc
          rcases List.mem_cons.mp hc with he | hc2
          · exact ha he.symm
          · exact hk hc2)]

theorem lookup1_mem [DecidableEq κ] {idx : List (κ × ν)} {k : κ} {v : ν}
    (h : lookup1 idx k = some v) : (k, v) ∈ idx := by
  unfold lookup1 at h
  cases hf : idx.find? (fun e => decide (e.1 = k)) with
  | none => rw [hf] at h; simp at h
  | some e =>
    rw [hf] at h
    simp only [Option.map_some'] at h
    injection h with h
    have hm := List.mem_of_find?_eq_some hf
    have hpb := List.find?_some hf
    simp only [decide_eq_true_eq] at hpb
    have hp : e.1 = k := hpb
    obtain ⟨e1, e2⟩ := e
    simp only at hp h
    rw [← hp, ← h]
    exact hm

/-
Snapshot plumbing: the fields of the structure built by the setup
function, and facts about the records of `latest`.
-/

theorem init_latest_def (log1p : ℚ → ℚ) (rows : List Row) :
    (initialize_dataset log1p rows).latest =
      (dedupRows rows).map (mkRec log1p (listMin (logsOf log1p rows))
        (listMax (logsOf log1p rows))) := rfl

theorem init_log_min_def (log1p : ℚ → ℚ) (rows : List Row) :
    (initialize_dataset log1p rows).log_min = listMin (logsOf log1p rows) := rfl

theorem init_log_max_def (log1p : ℚ → ℚ) (rows : List Row) :
    (initialize_dataset log1p rows).log_max = listMax (logsOf log1p rows) := rfl

theorem init_log_median_def (log1p : ℚ → ℚ) (rows : List Row) :
    (initialize_dataset log1p rows).log_median = listMedian (logsOf log1p rows) := rfl

theorem init_town_def (log1p : ℚ → ℚ) (rows : List Row) :
    (initialize_dataset log1p rows).town_index =
      sortByLe townPairLe
        (((initialize_dataset log1p rows).latest).map (fun r => (townKey r, r))) := rfl

theorem init_county_def (log1p : ℚ → ℚ) (rows : List Row) :
    (initialize_dataset log1p rows).county_index =
      (countyGroupOf ((initialize_dataset log1p rows).latest)).map
        (fun e => ((strUpper e.1.1, strLower e.1.2), e.2)) := rfl

theorem init_state_def (log1p : ℚ → ℚ) (rows : List Row) :
    (initialize_dataset log1p rows).state_index =
      (stateGroupOf ((initialize_dataset log1p rows).latest)).map
        (fun e => (strUpper e.1, e.2)) := rfl

theorem cleanPop_pos (p : Option ℚ) : 0 < cleanPop p := by
  show 0 < if (p.getD 0) ≤ 0 then 1000 else (p.getD 0)
  split
  · norm_num
  · next hv => exact lt_of_not_le hv

theorem dedup_ne_nil {rows : List Row} (h : rows ≠ []) : dedupRows rows ≠ [] := by
  unfold dedupRows
  cases hs : sortByLe rowBefore rows with
  | nil =>
    exfalso
    apply h
    have hp := sortByLe_perm rowBefore rows
    rw [hs] at hp
    exact hp.symm.eq_nil
  | cons a t => simp [dropDupBy]

theorem logsOf_ne_nil (log1p : ℚ → ℚ) {rows : List Row} (h : rows ≠ []) :
    logsOf log1p rows ≠ [] := by
  unfold logsOf
  intro hc
  exact dedup_ne_nil h (List.map_eq_nil_iff.mp hc)

theorem mem_latest_pop (log1p : ℚ → ℚ) (rows : List Row) {r : Rec}
    (h : r ∈ (initialize_dataset log1p rows).latest) :
    0 < r.population ∧ r.log_pop = log1p r.population ∧ r.log_pop ∈ logsOf log1p rows := by
  rw [init_latest_def] at h
  obtain ⟨row, hrow, rfl⟩ := List.mem_map.mp h
  exact ⟨cleanPop_pos _, rfl, List.mem_map_of_mem _ hrow⟩

theorem mem_latest_score (log1p : ℚ → ℚ) (rows : List Row) {r : Rec}
    (h : r ∈ (initialize_dataset log1p rows).latest) :
    ∃ mn mx, (initialize_dataset log1p rows).log_min = some mn ∧
      (initialize_dataset log1p rows).log_max = some mx ∧
      r.score_log_linear = scoreLin mn mx r.log_pop ∧
      mn ≤ r.log_pop ∧ r.log_pop ≤ mx := by
  have hlp := mem_latest_pop log1p rows h
  have hne : logsOf log1p rows ≠ [] := List.ne_nil_of_mem hlp.2.2
  obtain ⟨mn, hmn⟩ := listMin_of_ne_nil hne
  obtain ⟨mx, hmx⟩ := listMax_of_ne_nil hne
  refine ⟨mn, mx, by rw [init_log_min_def]; exact hmn,
    by rw [init_log_max_def]; exact hmx, ?_,
    listMin_le hmn _ hlp.2.2, listMax_ge hmx _ hlp.2.2⟩
  rw [init_latest_def] at h
  obtain ⟨row, hrow, rfl⟩ := List.mem_map.mp h
  simp only [mkRec]
  rw [hmn, hmx]

theorem mem_latest_score_bounds (log1p : ℚ → ℚ) (rows : List Row) {r : Rec}
    (h : r ∈ (initialize_dataset log1p rows).latest) :
    1 ≤ r.score_log_linear ∧ r.score_log_linear ≤ 100 := by
  obtain ⟨mn, mx, _, _, hsc, hlo, hhi⟩ := mem_latest_score log1p rows h
  rw [hsc]
  exact scoreLin_bounds hlo hhi

theorem init_stats_some (log1p : ℚ → ℚ) {rows : List Row} (h : rows ≠ []) :
    ∃ mn mx md, (initialize_dataset log1p rows).log_min = some mn ∧
      (initialize_dataset log1p rows).log_max = some mx ∧
      (initialize_dataset log1p rows).log_median = some md ∧
      mn ≤ md ∧ md ≤ mx := by
  have hne := logsOf_ne_nil log1p h
  obtain ⟨mn, hmn⟩ := listMin_of_ne_nil hne
  obtain ⟨mx, hmx⟩ := listMax_of_ne_nil hne
  obtain ⟨md, hmd⟩ := listMedian_of_ne_nil hne
  obtain ⟨h1, h2⟩ := listMedian_bounds hmn hmx hmd
  exact ⟨mn, mx, md, by rw [init_log_min_def]; exact hmn,
    by rw [init_log_max_def]; exact hmx,
    by rw [init_log_median_def]; exact hmd, h1, h2⟩

theorem mem_town_index {log1p : ℚ → ℚ} {rows : List Row} {k : String × String} {r : Rec}
    (h : (k, r) ∈ (initialize_dataset log1p rows).town_index) :
    r ∈ (initialize_dataset log1p rows).latest ∧ k = townKey r := by
  rw [init_town_def] at h
  have h2 := (sortByLe_perm townPairLe _).subset h
  obtain ⟨r2, hr2, he⟩ := List.mem_map.mp h2
  rw [Prod.mk.injEq] at he
  obtain ⟨he1, he2⟩ := he
  subst he2
  exact ⟨hr2, he1.symm⟩

theorem mem_county_group {latest : List Rec} {e : (String × String) × CountyAgg}
    (h : e ∈ countyGroupOf latest) :
    e.2 = countyAggAt latest e.1 ∧
      latest.filter (fun r => decide (countyKey r = e.1)) ≠ [] := by
  unfold countyGroupOf at h
  obtain ⟨k, hk, he⟩ := List.mem_map.mp h
  subst he
  refine ⟨rfl, ?_⟩
  have hk2 := mem_of_mem_dropDupBy ((sortByLe_perm pairLe _).subset hk)
  obtain ⟨r, hr, hkr⟩ := List.mem_map.mp hk2
  exact List.ne_nil_of_mem (List.mem_filter.mpr ⟨hr, by simpa using hkr⟩)

theorem mem_state_group {latest : List Rec} {e : String × StateAgg}
    (h : e ∈ stateGroupOf latest) :
    e.2 = stateAggAt latest e.1 ∧
      latest.filter (fun r => decide (r.stateAbbreviation = e.1)) ≠ [] := by
  unfold stateGroupOf at h
  obtain ⟨k, hk, he⟩ := List.mem_map.mp h
  subst he
  refine ⟨rfl, ?_⟩
  have hk2 := mem_of_mem_dropDupBy ((sortByLe_perm strLe _).subset hk)
  obtain ⟨r, hr, hkr⟩ := List.mem_map.mp hk2
  exact List.ne_nil_of_mem (List.mem_filter.mpr ⟨hr, by simpa using hkr⟩)

theorem mem_county_index {log1p : ℚ → ℚ} {rows : List Row} {k : String × String}
    {c : CountyAgg} (h : (k, c) ∈ (initialize_dataset log1p rows).county_index) :
    ∃ g : List Rec, g ≠ [] ∧ (∀ x ∈ g, x ∈ (initialize_dataset log1p rows).latest) ∧
      c.county_score_weighted = weightedScore g := by
  rw [init_county_def] at h
  obtain ⟨e, he, hee⟩ := List.mem_map.mp h
  obtain ⟨h1, h2⟩ := mem_county_group he
  rw [Prod.mk.injEq] at hee
  refine ⟨(initialize_dataset log1p rows).latest.filter
      (fun r => decide (countyKey r = e.1)), h2, ?_, ?_⟩
  · intro x hx
    exact List.mem_of_mem_filter hx
  · rw [← hee.2, h1]
    rfl

theorem mem_state_index {log1p : ℚ → ℚ} {rows : List Row} {k : String}
    {c : StateAgg} (h : (k, c) ∈ (initialize_dataset log1p rows).state_index) :
    ∃ g : List Rec, g ≠ [] ∧ (∀ x ∈ g, x ∈ (initialize_dataset log1p rows).latest) ∧
      c.state_score_weighted = weightedScore g := by
  rw [init_state_def] at h
  obtain ⟨e, he, hee⟩ := List.mem_map.mp h
  obtain ⟨h1, h2⟩ := mem_state_group he
  rw [Prod.mk.injEq] at hee
  refine ⟨(initialize_dataset log1p rows).latest.filter
      (fun r => decide (r.stateAbbreviation = e.1)), h2, ?_, ?_⟩
  · intro x hx
    exact List.mem_of_mem_filter hx
  · rw [← hee.2, h1]
    rfl

theorem listMax_mem : ∀ {l : List ℚ} {m : ℚ}, listMax l = some m → m ∈ l := by
  intro l
  induction l with
  | nil => intro m h; simp [listMax] at h
  | cons a t ih =>
    intro m h
    simp only [listMax] at h
    cases ht : listMax t with
    | none => rw [ht] at h; injection h with h; exact h ▸ List.mem_cons_self a t
    | some mt =>
      rw [ht] at h; injection h with h
      have h2 : max a mt = m := h
      rcases max_choice a mt with hc | hc
      · rw [h2.symm.trans hc]; exact List.mem_cons_self a t
      · rw [h2.symm.trans hc]; exact List.mem_cons_of_mem a (ih ht)

/-
One reduction lemma per resolver branch.
-/

theorem get_best_town_eq (snap : Snapshot) (st cn pl : String) {r : Rec}
    (ht : lookup1 snap.town_index (strUpper (_norm st), strLower (_norm pl)) = some r) :
    get_best_score_with_meta st cn pl snap =
      (some r.score_log_linear, "town",
        Details.town "town" r.placeName (truncQ r.population) r.score_log_linear) := by
  simp only [get_best_score_with_meta, ht]

theorem get_best_county_eq (snap : Snapshot) (st cn pl : String) {c : CountyAgg}
    (ht : lookup1 snap.town_index (strUpper (_norm st), strLower (_norm pl)) = none)
    (hc : lookup1 snap.county_index (strUpper (_norm st), strLower (_norm cn)) = some c) :
    get_best_score_with_meta st cn pl snap =
      (some c.county_score_weighted, "county",
        Details.county "county" (_norm (strLower (_norm cn))) c.county_score_weighted) := by
  simp only [get_best_score_with_meta, ht, hc]

theorem get_best_state_eq (snap : Snapshot) (st cn pl : String) {sa : StateAgg}
    (ht : lookup1 snap.town_index (strUpper (_norm st), strLower (_norm pl)) = none)
    (hc : lookup1 snap.county_index (strUpper (_norm st), strLower (_norm cn)) = none)
    (hs : lookup1 snap.state_index (strUpper (_norm st)) = some sa) :
    get_best_score_with_meta st cn pl snap =
      (some sa.state_score_weighted, "state",
        Details.state "state" (strUpper (_norm st)) sa.state_score_weighted) := by
  simp only [get_best_score_with_meta, ht, hc, hs]

theorem get_best_fallback_eq (snap : Snapshot) (st cn pl : String)
    (ht : lookup1 snap.town_index (strUpper (_norm st), strLower (_norm pl)) = none)
    (hc : lookup1 snap.county_index (strUpper (_norm st), strLower (_norm cn)) = none)
    (hs : lookup1 snap.state_index (strUpper (_norm st)) = none) :
    get_best_score_with_meta st cn pl snap =
      (fallbackScore snap.log_min snap.log_max snap.log_median, "global_fallback",
        Details.fallback "global_fallback" "no match found for town/county/state") := by
  simp only [get_best_score_with_meta, ht, hc, hs]

/-
Claim theorems.
-/

/-- C1: for every query and snapshot the resolver tries the levels in
the strict order town, county, state, global fallback, and returns at
the first level whose normalized key is present; in particular a hit in
the town index yields that record's score with level "town" no matter
what the county and state indexes contain. -/
theorem resolver_fallback_order (snap : Snapshot) (st cn pl : String) :
    (∀ r : Rec,
      lookup1 snap.town_index (strUpper (_norm st), strLower (_norm pl)) = some r →
      get_best_score_with_meta st cn pl snap =
        (some r.score_log_linear, "town",
          Details.town "town" r.placeName (truncQ r.population) r.score_log_linear)) ∧
    (lookup1 snap.town_index (strUpper (_norm st), strLower (_norm pl)) = none →
      ∀ c : CountyAgg,
        lookup1 snap.county_index (strUpper (_norm st), strLower (_norm cn)) = some c →
        get_best_score_with_meta st cn pl snap =
          (some c.county_score_weighted, "county",
            Details.county "county" (_norm (strLower (_norm cn))) c.county_score_weighted)) ∧
    (lookup1 snap.town_index (strUpper (_norm st), strLower (_norm pl)) = none →
      lookup1 snap.county_index (strUpper (_norm st), strLower (_norm cn)) = none →
      ∀ sa : StateAgg, lookup1 snap.state_index (strUpper (_norm st)) = some sa →
        get_best_score_with_meta st cn pl snap =
          (some sa.state_score_weighted, "state",
            Details.state "state" (strUpper (_norm st)) sa.state_score_weighted)) ∧
    (lookup1 snap.town_index (strUpper (_norm st), strLower (_norm pl)) = none →
      lookup1 snap.county_index (strUpper (_norm st), strLower (_norm cn)) = none →
      lookup1 snap.state_index (strUpper (_norm st)) = none →
      get_best_score_with_meta st cn pl snap =
        (fallbackScore snap.log_min snap.log_max snap.log_median, "global_fallback",
          Details.fallback "global_fallback" "no match found for town/county/state")) :=
  ⟨fun _ ht => get_best_town_eq snap st cn pl ht,
   fun ht _ hc => get_best_county_eq snap st cn pl ht hc,
   fun ht hc _ hs => get_best_state_eq snap st cn pl ht hc hs,
   fun ht hc hs => get_best_fallback_eq snap st cn pl ht hc hs⟩

/-- Witness for C1: in `snapA` all three levels can answer the query
(CA, LA County, Los Angeles), and the resolver still answers at the
town level with the Los Angeles record. -/
theorem resolver_fallback_order_witness :
    lookup1 snapA.town_index ("CA", "los angeles") = some recLA ∧
    lookup1 snapA.county_index ("CA", "la county") ≠ none ∧
    lookup1 snapA.state_index "CA" ≠ none ∧
    get_best_score_with_meta "CA" "LA County" "Los Angeles" snapA =
      (some 100, "town", Details.town "town" "Los Angeles" 3 100) := by
  refine ⟨by with_unfolding_all decide, by with_unfolding_all decide,
    by with_unfolding_all decide, ?_⟩
  have h := (resolver_fallback_order snapA "CA" "LA County" "Los Angeles").1 recLA
    (by with_unfolding_all decide)
  rw [h]
  with_unfolding_all decide

/-- C2: a query missing every index level resolves to the global
fallback with the defined numeric score
round2(((log_median - log_min) / (log_max - log_min)) * 99 + 1),
50.0 in the degenerate log_max = log_min case — never a missing
value, since the statistics are defined for a nonempty dataset. -/
theorem resolver_global_fallback (log1p : ℚ → ℚ) (rows : List Row) (st cn pl : String)
    (hrows : rows ≠ [])
    (ht : lookup1 (initialize_dataset log1p rows).town_index
      (strUpper (_norm st), strLower (_norm pl)) = none)
    (hc : lookup1 (initialize_dataset log1p rows).county_index
      (strUpper (_norm st), strLower (_norm cn)) = none)
    (hs : lookup1 (initialize_dataset log1p rows).state_index (strUpper (_norm st)) = none) :
    ∃ mn mx md : ℚ,
      (initialize_dataset log1p rows).log_min = some mn ∧
      (initialize_dataset log1p rows).log_max = some mx ∧
      (initialize_dataset log1p rows).log_median = some md ∧
      get_best_score_with_meta st cn pl (initialize_dataset log1p rows) =
        (some (scoreLin mn mx md), "global_fallback",
          Details.fallback "global_fallback" "no match found for town/county/state") ∧
      scoreLin mn mx md =
        round2 (if mx = mn then 50 else ((md - mn) / (mx - mn)) * 99 + 1) ∧
      (mx = mn → scoreLin mn mx md = 50) := by
  obtain ⟨mn, mx, md, hmn, hmx, hmd, _, _⟩ := init_stats_some log1p hrows
  refine ⟨mn, mx, md, hmn, hmx, hmd, ?_, rfl, ?_⟩
  · rw [get_best_fallback_eq _ _ _ _ ht hc hs, hmn, hmx, hmd]
    rfl
  · intro he
    rw [he]
    exact scoreLin_degenerate mn md

/-- Witness for C2: a fully unknown query against the one-record
dataset `rows2` falls through all levels to the global fallback, whose
score (degenerate case) is 50. -/
theorem resolver_global_fallback_witness :
    lookup1 (initialize_dataset (fun q => q) rows2).town_index ("ZZ", "b") = none ∧
    lookup1 (initialize_dataset (fun q => q) rows2).county_index ("ZZ", "a") = none ∧
    lookup1 (initialize_dataset (fun q => q) rows2).state_index "ZZ" = none ∧
    get_best_score_with_meta "ZZ" "A" "B" (initialize_dataset (fun q => q) rows2) =
      (some 50, "global_fallback",
        Details.fallback "global_fallback" "no match found for town/county/state") := by
  refine ⟨by with_unfolding_all decide, by with_unfolding_all decide,
    by with_unfolding_all decide, ?_⟩
  obtain ⟨mn, mx, md, hmn, hmx, hmd, hres, _, hdeg⟩ :=
    resolver_global_fallback (fun q => q) rows2 "ZZ" "A" "B"
      (by with_unfolding_all decide) (by with_unfolding_all decide)
      (by with_unfolding_all decide) (by with_unfolding_all decide)
  have hmn2 : mn = 2 := by
    have hv : (initialize_dataset (fun q => q) rows2).log_min = some 2 := by
      with_unfolding_all decide
    exact Option.some.inj (hmn.symm.trans hv)
  have hmx2 : mx = 2 := by
    have hv : (initialize_dataset (fun q => q) rows2).log_max = some 2 := by
      with_unfolding_all decide
    exact Option.some.inj (hmx.symm.trans hv)
  rw [hres, hdeg (hmx2.trans hmn2.symm)]

/-- C3: after deduplication the exact (stateAbbreviation, placeName)
keys are pairwise distinct (at most one record per pair), every kept
record is an input row, every input key remains represented, and the
kept record's approval date is maximal in its group under the order in
which a null date is the minimum, so any dated record beats every
undated one. -/
theorem dedup_keeps_unique_latest (rows : List Row) :
    (dedupRows rows).Pairwise (fun a b => dedupKey a ≠ dedupKey b) ∧
    (∀ r ∈ dedupRows rows, r ∈ rows) ∧
    (∀ r2 ∈ rows, ∃ r ∈ dedupRows rows, dedupKey r = dedupKey r2) ∧
    (∀ r ∈ dedupRows rows, ∀ r2 ∈ rows, dedupKey r2 = dedupKey r →
      dateLe r2.planApprovalDate r.planApprovalDate = true) := by
  refine ⟨pairwise_key_ne dedupKey _ _, ?_, ?_, ?_⟩
  · intro r hr
    exact (sortByLe_perm rowBefore rows).subset (mem_of_mem_dropDupBy hr)
  · intro r2 h2
    exact exists_key_mem_dropDupBy dedupKey _ [] r2 (mem_sortByLe.mpr h2) (by simp)
  · intro r hr r2 h2 hk
    have hp : (sortByLe rowBefore rows).Pairwise (fun a b => rowBefore a b = true) :=
      sortByLe_pairwise rowBefore rowBefore_total
        (fun _ _ _ h1 h2 => rowBefore_trans h1 h2) rows
    have hrel := rel_of_mem_dropDupBy dedupKey (fun a b => rowBefore a b = true)
      _ [] hp r hr r2 (mem_sortByLe.mpr h2) hk
    rcases hrel with rfl | hR
    · exact dateLe_refl _
    · exact hR

/-- Witness for C3: of two duplicates of (CA, X) the dated one is kept
and it dominates the undated one. -/
theorem dedup_keeps_unique_latest_witness :
    dedupRows rows3 = [rowD] ∧
    dateLe rowU.planApprovalDate rowD.planApprovalDate = true := by
  refine ⟨by with_unfolding_all decide, ?_⟩
  exact (dedup_keeps_unique_latest rows3).2.2.2 rowD (by with_unfolding_all decide)
    rowU (by with_unfolding_all decide) (by with_unfolding_all decide)

/-- C9: deduplication is idempotent — applied to its own output it
returns that output unchanged. -/
theorem dedup_idempotent (rows : List Row) :
    dedupRows (dedupRows rows) = dedupRows rows := by
  have hp1 : (sortByLe rowBefore rows).Pairwise (fun a b => rowBefore a b = true) :=
    sortByLe_pairwise rowBefore rowBefore_total
      (fun _ _ _ h1 h2 => rowBefore_trans h1 h2) rows
  have hp2 : (dedupRows rows).Pairwise (fun a b => rowBefore a b = true) :=
    List.Pairwise.sublist (dropDupBy_sublist dedupKey _ []) hp1
  show dropDupBy dedupKey (sortByLe rowBefore (dedupRows rows)) [] = dedupRows rows
  rw [sortByLe_eq_self rowBefore _ hp2]
  exact dropDupBy_eq_self dedupKey _ [] (pairwise_key_ne dedupKey _ []) (by simp)

/-- C4: for every non-empty (stateAbbreviation, countyName) group of the
deduplicated frame, the aggregator yields county_pop = the simple sum of
the group's populations and county_score_weighted =
sum(score_i * population_i) / sum(population_i); the state-level
aggregate grouped by stateAbbreviation is computed the same way. -/
theorem county_state_weighted_agg (latest : List Rec) (st cn : String) :
    (latest.filter (fun r => decide (countyKey r = (st, cn))) ≠ [] →
      lookup1 (countyGroupOf latest) (st, cn) =
        some ⟨sumPop (latest.filter (fun r => decide (countyKey r = (st, cn)))),
          ((latest.filter (fun r => decide (countyKey r = (st, cn)))).map
            (fun r => r.score_log_linear * r.population)).sum /
          sumPop (latest.filter (fun r => decide (countyKey r = (st, cn))))⟩) ∧
    (latest.filter (fun r => decide (r.stateAbbreviation = st)) ≠ [] →
      lookup1 (stateGroupOf latest) st =
        some ⟨sumPop (latest.filter (fun r => decide (r.stateAbbreviation = st))),
          ((latest.filter (fun r => decide (r.stateAbbreviation = st))).map
            (fun r => r.score_log_linear * r.population)).sum /
          sumPop (latest.filter (fun r => decide (r.stateAbbreviation = st)))⟩) := by
  constructor
  · intro hne
    obtain ⟨r, hr⟩ := List.exists_mem_of_ne_nil _ hne
    have hrl := List.mem_of_mem_filter hr
    have hrk := List.of_mem_filter hr
    simp only [decide_eq_true_eq] at hrk
    have hkeys : (st, cn) ∈ sortByLe pairLe (dropDupBy id (latest.map countyKey) []) := by
      rw [mem_sortByLe]
      exact mem_dropDupBy_id (hrk ▸ List.mem_map_of_mem countyKey hrl)
    unfold countyGroupOf
    rw [lookup1_map_keys (countyAggAt latest) _ (st, cn), if_pos hkeys]
    rfl
  · intro hne
    obtain ⟨r, hr⟩ := List.exists_mem_of_ne_nil _ hne
    have hrl := List.mem_of_mem_filter hr
    have hrk := List.of_mem_filter hr
    simp only [decide_eq_true_eq] at hrk
    have hkeys : st ∈ sortByLe strLe
        (dropDupBy id (latest.map (fun r => r.stateAbbreviation)) []) := by
      rw [mem_sortByLe]
      exact mem_dropDupBy_id (hrk ▸ List.mem_map_of_mem (fun r => r.stateAbbreviation) hrl)
    unfold stateGroupOf
    rw [lookup1_map_keys (stateAggAt latest) _ st, if_pos hkeys]
    rfl

/-- Witness for C4 at the spec's example: a county holding records of
population 1000 with score 40 and population 3000 with score 80 gets
county_pop 4000 and county_score_weighted 70, and so does the state. -/
theorem county_state_weighted_agg_witness :
    lookup1 (countyGroupOf latestW) ("CA", "K") = some ⟨4000, 70⟩ ∧
    lookup1 (stateGroupOf latestW) "CA" = some ⟨4000, 70⟩ := by
  constructor
  · have h := (county_state_weighted_agg latestW "CA" "K").1
      (by norm_num [latestW, countyKey, List.filter]; exact List.cons_ne_nil _ _)
    rw [h]
    norm_num [latestW, countyKey, sumPop, List.filter]
  · have h := (county_state_weighted_agg latestW "CA" "K").2
      (by norm_num [latestW, List.filter]; exact List.cons_ne_nil _ _)
    rw [h]
    norm_num [latestW, sumPop, List.filter]

/-- C5: every deduplicated record's score_log_linear lies in [1, 100],
and on a snapshot built from at least one record the resolver returns a
defined score in [1, 100] at every level. -/
theorem score_bounds (log1p : ℚ → ℚ) (rows : List Row) (hrows : rows ≠ []) :
    (∀ r ∈ (initialize_dataset log1p rows).latest,
      1 ≤ r.score_log_linear ∧ r.score_log_linear ≤ 100) ∧
    (∀ st cn pl : String, ∃ s : ℚ,
      (get_best_score_with_meta st cn pl (initialize_dataset log1p rows)).1 = some s ∧
      1 ≤ s ∧ s ≤ 100) := by
  refine ⟨fun r hr => mem_latest_score_bounds log1p rows hr, ?_⟩
  intro st cn pl
  cases ht : lookup1 (initialize_dataset log1p rows).town_index
      (strUpper (_norm st), strLower (_norm pl)) with
  | some r =>
    refine ⟨r.score_log_linear, ?_,
      mem_latest_score_bounds log1p rows (mem_town_index (lookup1_mem ht)).1⟩
    rw [get_best_town_eq _ _ _ _ ht]
  | none =>
    cases hc : lookup1 (initialize_dataset log1p rows).county_index
        (strUpper (_norm st), strLower (_norm cn)) with
    | some c =>
      obtain ⟨g, hgne, hgsub, hw⟩ := mem_county_index (lookup1_mem hc)
      have hb := weightedScore_bounds hgne
        (fun x hx => (mem_latest_pop log1p rows (hgsub x hx)).1)
        (fun x hx => mem_latest_score_bounds log1p rows (hgsub x hx))
      refine ⟨c.county_score_weighted, ?_, by rw [hw]; exact hb.1, by rw [hw]; exact hb.2⟩
      rw [get_best_county_eq _ _ _ _ ht hc]
    | none =>
      cases hs : lookup1 (initialize_dataset log1p rows).state_index
          (strUpper (_norm st)) with
      | some sa =>
        obtain ⟨g, hgne, hgsub, hw⟩ := mem_state_index (lookup1_mem hs)
        have hb := weightedScore_bounds hgne
          (fun x hx => (mem_latest_pop log1p rows (hgsub x hx)).1)
          (fun x hx => mem_latest_score_bounds log1p rows (hgsub x hx))
        refine ⟨sa.state_score_weighted, ?_, by rw [hw]; exact hb.1, by rw [hw]; exact hb.2⟩
        rw [get_best_state_eq _ _ _ _ ht hc hs]
      | none =>
        obtain ⟨mn, mx, md, hmn, hmx, hmd, h1, h2⟩ := init_stats_some log1p hrows
        refine ⟨scoreLin mn mx md, ?_, (scoreLin_bounds h1 h2).1, (scoreLin_bounds h1 h2).2⟩
        rw [get_best_fallback_eq _ _ _ _ ht hc hs]
        show fallbackScore (initialize_dataset log1p rows).log_min
          (initialize_dataset log1p rows).log_max
          (initialize_dataset log1p rows).log_median = some (scoreLin mn mx md)
        rw [hmn, hmx, hmd]
        rfl

set_option maxRecDepth 1500 in
/-- Witness for C5: on `rowsA` the fully-unknown query resolves to the
global fallback score 50.5, which lies in [1, 100]. -/
theorem score_bounds_witness :
    rowsA ≠ [] ∧
    (get_best_score_with_meta "ZZ" "X" "Y" (initialize_dataset (fun q => q) rowsA)).1 =
      some (101 / 2) ∧ 1 ≤ (101 / 2 : ℚ) ∧ (101 / 2 : ℚ) ≤ 100 := by
  refine ⟨by decide, ?_⟩
  obtain ⟨s, hs, h1, h2⟩ := (score_bounds (fun q => q) rowsA (by decide)).2 "ZZ" "X" "Y"
  have hv : (get_best_score_with_meta "ZZ" "X" "Y" (initialize_dataset (fun q => q) rowsA)).1 =
      some (101 / 2) := by with_unfolding_all decide
  have hs2 : s = 101 / 2 := Option.some.inj (hs.symm.trans hv)
  exact ⟨hv, hs2 ▸ h1, hs2 ▸ h2⟩

/-- C6: if every deduplicated record carries one common population
value, log_max equals log_min and every score_log_linear is exactly
50.0. -/
theorem degenerate_equal_population_score (log1p : ℚ → ℚ) (rows : List Row) (p : ℚ)
    (h : ∀ r ∈ (initialize_dataset log1p rows).latest, r.population = p) :
    ∀ r ∈ (initialize_dataset log1p rows).latest, r.score_log_linear = 50 := by
  intro r hr
  have hall : ∀ x ∈ logsOf log1p rows, x = log1p p := by
    intro x hx
    unfold logsOf at hx
    obtain ⟨row, hrow, rfl⟩ := List.mem_map.mp hx
    have hmem : mkRec log1p (listMin (logsOf log1p rows)) (listMax (logsOf log1p rows)) row ∈
        (initialize_dataset log1p rows).latest := by
      rw [init_latest_def]
      exact List.mem_map_of_mem _ hrow
    have hpop : cleanPop row.population = p := h _ hmem
    rw [hpop]
  obtain ⟨mn, mx, hmn, hmx, hsc, _, _⟩ := mem_latest_score log1p rows hr
  rw [init_log_min_def] at hmn
  rw [init_log_max_def] at hmx
  have hmnv : mn = log1p p := hall mn (listMin_mem hmn)
  have hmxv : mx = log1p p := hall mx (listMax_mem hmx)
  rw [hsc, hmnv, hmxv, scoreLin_degenerate]

/-- Witness for C6: both records of `rows6` share population 7, and both
scores evaluate to 50. -/
theorem degenerate_equal_population_score_witness :
    (initialize_dataset (fun q => q) rows6).latest.all
      (fun r => decide (r.score_log_linear = 50)) = true := by
  rw [List.all_eq_true]
  intro r hr
  exact decide_eq_true (degenerate_equal_population_score (fun q => q) rows6 7
    (by with_unfolding_all decide) r hr)

/-- Counterexample to C7 as stated: the valid input population 5 is kept
unchanged by preprocessing, so not every record ends with population at
least 1000 (only populations that are missing, non-numeric or at most 0
are floored to 1000). -/
theorem population_floor_counterexample :
    (initialize_dataset (fun q => q) rows7).latest = [rec7] ∧
    rec7.population = 5 ∧ rec7.population < 1000 := by
  refine ⟨by with_unfolding_all decide, by with_unfolding_all decide,
    by with_unfolding_all decide⟩

/-- C7 (amended): preprocessing recovers from malformed fields — a
missing (NaN) population becomes 0 and is floored to 1000, as is any
population at most 0 — so every preprocessed record's population is
positive; valid populations below 1000 are kept as given. -/
theorem population_positive_after_clean (log1p : ℚ → ℚ) (rows : List Row) :
    (∀ r ∈ (initialize_dataset log1p rows).latest, 0 < r.population) ∧
    cleanPop none = 1000 ∧
    (∀ q : ℚ, q ≤ 0 → cleanPop (some q) = 1000) := by
  refine ⟨fun r hr => (mem_latest_pop log1p rows hr).1, by decide, ?_⟩
  intro q hq
  show (if q ≤ 0 then (1000 : ℚ) else q) = 1000
  rw [if_pos hq]

/-- Witness for C7 (amended) at concrete inputs. -/
theorem population_positive_after_clean_witness :
    0 < rec7.population ∧ cleanPop (some (-3)) = 1000 ∧ cleanPop none = 1000 :=
  ⟨(population_positive_after_clean (fun q => q) rows7).1 rec7
      (by with_unfolding_all decide),
   (population_positive_after_clean (fun q => q) rows7).2.2 (-3) (by norm_num),
   (population_positive_after_clean (fun q => q) rows7).2.1⟩

/-- C8 evaluation: on a dataset with zero records the setup function
completes normally instead of failing — it returns a snapshot whose
global statistics are NaN (none) — and the resolver built on it answers
a NaN (none) score at level global_fallback. -/
theorem empty_dataset_init_completes :
    (initialize_dataset (fun q => q) []).latest = [] ∧
    (initialize_dataset (fun q => q) []).log_min = none ∧
    (initialize_dataset (fun q => q) []).log_max = none ∧
    (initialize_dataset (fun q => q) []).log_median = none ∧
    get_best_score_with_meta "ZZ" "Nowhere" "Nowhere" (initialize_dataset (fun q => q) []) =
      (none, "global_fallback",
        Details.fallback "global_fallback" "no match found for town/county/state") := by
  refine ⟨by with_unfolding_all decide, by with_unfolding_all decide,
    by with_unfolding_all decide, by with_unfolding_all decide,
    by with_unfolding_all decide⟩

/-- C10: when the case-normalized town index holds several rows under
one key, the resolver does not fail: it returns the first indexed row's
placeName, population and score_log_linear with level "town". -/
theorem town_collision_first_row (snap : Snapshot) (st cn pl : String)
    (e1 e2 : (String × String) × Rec) (rest : List ((String × String) × Rec))
    (hf : snap.town_index.filter
      (fun x => decide (x.1 = (strUpper (_norm st), strLower (_norm pl)))) =
      e1 :: e2 :: rest) :
    get_best_score_with_meta st cn pl snap =
      (some e1.2.score_log_linear, "town",
        Details.town "town" e1.2.placeName (truncQ e1.2.population)
          e1.2.score_log_linear) := by
  have ht : lookup1 snap.town_index (strUpper (_norm st), strLower (_norm pl)) =
      some e1.2 := by
    unfold lookup1
    rw [find?_eq_of_filter_cons hf]
    rfl
  exact get_best_town_eq snap st cn pl ht

/-- Witness for C10: in `snap10` the records for the exact place names
"Springfield" and "springfield" collide on the normalized key
(CA, springfield); the resolver returns the first indexed row
(Springfield, population 2, score 1). -/
theorem town_collision_first_row_witness :
    snap10.town_index.filter
      (fun x => decide (x.1 = (strUpper (_norm "CA"), strLower (_norm "SPRINGFIELD")))) =
      [(("CA", "springfield"), rec10a), (("CA", "springfield"), rec10b)] ∧
    get_best_score_with_meta "CA" "K" "SPRINGFIELD" snap10 =
      (some 1, "town", Details.town "town" "Springfield" 2 1) := by
  constructor
  · with_unfolding_all decide
  · have h := town_collision_first_row snap10 "CA" "K" "SPRINGFIELD"
      (("CA", "springfield"), rec10a) (("CA", "springfield"), rec10b) []
      (by with_unfolding_all decide)
    rw [h]
    with_unfolding_all decide
